import Mathlib

/-!
Verification development for the baby-shower guessing app (`src/app.py`).

Strings are modelled as `List Char`.  The flat-file store is modelled at the
character level: `csv.writer` / `csv.reader` (default dialect: delimiter `,`,
quote char `"`, doubled quotes, line terminator CRLF, minimal quoting) are
embedded as an encoder and a fuelled parser, and the round-trip is proved.
The relational store is a list of `Guess` rows with an auto-assigned id.
Form validation follows the WTForms validators attached to `GuessForm`.
-/

namespace BabyShower

/-- Convert a Lean string literal into the `List Char` representation used
throughout this development. -/
def cs (s : String) : List Char := s.data

/-- Whitespace characters stripped by Python's `str.strip` (ASCII range). -/
def isPySpace (c : Char) : Bool :=
  c = ' ' || c = '\t' || c = '\n' || c = '\r' || c = Char.ofNat 11 || c = Char.ofNat 12

/-- Python `str.strip()`: remove leading and trailing whitespace. -/
def pyStrip (s : List Char) : List Char :=
  ((s.dropWhile isPySpace).reverse.dropWhile isPySpace).reverse

/-- Numeric value of a decimal digit character. -/
def digitVal (c : Char) : Nat := c.toNat - 48

/-- All characters are decimal digits. -/
def allDigits (l : List Char) : Bool := l.all Char.isDigit

/-- Numeric value of a digit string (most significant first). -/
def natOfDigits (l : List Char) : Nat := l.foldl (fun a c => 10 * a + digitVal c) 0

/-! ## CSV encoding — `csv.writer`, default dialect, QUOTE_MINIMAL -/

/-- A character that forces a field to be quoted (delimiter, quote char, or a
line-terminator character). -/
def quoteChar (c : Char) : Bool := c = ',' || c = '"' || c = '\r' || c = '\n'

/-- QUOTE_MINIMAL: quote exactly the fields containing a special character. -/
def needsQuote (f : List Char) : Bool := f.any quoteChar

/-- Double every quote character (the `doublequote = True` dialect option). -/
def escapeQuotes : List Char → List Char
  | [] => []
  | c :: r => if c = '"' then '"' :: '"' :: escapeQuotes r else c :: escapeQuotes r

/-- Encode one field as `csv.writer` does under QUOTE_MINIMAL. -/
def encodeField (f : List Char) : List Char :=
  if needsQuote f then '"' :: (escapeQuotes f ++ ['"']) else f

/-- Join encoded fields with the `,` delimiter. -/
def joinFields : List (List Char) → List Char
  | [] => []
  | [f] => encodeField f
  | f :: fs => encodeField f ++ ',' :: joinFields fs

/-- `csv.writer.writerow`: delimiter-joined encoded fields plus CRLF. -/
def encodeRow (fs : List (List Char)) : List Char := joinFields fs ++ ['\r', '\n']

/-! ## CSV parsing — `csv.reader`, default dialect -/

/-- A character terminating an unquoted field. -/
def sepChar (c : Char) : Bool := c = ',' || c = '\r' || c = '\n'

/-- Consume an unquoted field: everything up to a delimiter or end of line. -/
def parseUnquoted : List Char → List Char × List Char
  | [] => ([], [])
  | c :: r =>
    if sepChar c then ([], c :: r)
    else
      let p := parseUnquoted r
      (c :: p.1, p.2)

/-- Consume the body of a quoted field (opening quote already consumed):
a doubled quote is a literal quote, a single quote closes the field. -/
def parseQuoted : List Char → List Char × List Char
  | [] => ([], [])
  | c :: r =>
    if c = '"' then
      match r with
      | [] => ([], [])
      | c2 :: r2 =>
        if c2 = '"' then
          let p := parseQuoted r2
          ('"' :: p.1, p.2)
        else ([], c2 :: r2)
    else
      let p := parseQuoted r
      (c :: p.1, p.2)

/-- Consume one field: quoted (with a non-strict unquoted continuation, as in
the Python state machine) or unquoted. -/
def parseField : List Char → List Char × List Char
  | [] => ([], [])
  | c :: r =>
    if c = '"' then
      let p := parseQuoted r
      let q := parseUnquoted p.2
      (p.1 ++ q.1, q.2)
    else parseUnquoted (c :: r)

/-- Consume one record: fields separated by `,`, terminated by CRLF / CR / LF
or end of input.  Fuelled to make the recursion structural; each recursive
step consumes the separating comma, so `length + 1` fuel always suffices. -/
def parseRecordAux : Nat → List Char → List (List Char) × List Char
  | 0, l => ([], l)
  | Nat.succ n, l =>
    match parseField l with
    | (f, []) => ([f], [])
    | (f, c :: r2) =>
      if c = ',' then
        let q := parseRecordAux n r2
        (f :: q.1, q.2)
      else if c = '\r' then
        match r2 with
        | [] => ([f], [])
        | c2 :: r3 => if c2 = '\n' then ([f], r3) else ([f], c2 :: r3)
      else ([f], r2)

/-- Consume one record with sufficient fuel. -/
def parseRecord (l : List Char) : List (List Char) × List Char :=
  parseRecordAux (l.length + 1) l

/-- Parse a whole character stream into records.  Each record consumes at
least one character, so `length` fuel suffices. -/
def parseRowsAux : Nat → List Char → List (List (List Char))
  | 0, _ => []
  | Nat.succ n, l =>
    if l = [] then []
    else (parseRecord l).1 :: parseRowsAux n (parseRecord l).2

/-- Parse a whole file into its rows. -/
def parseRows (l : List Char) : List (List (List Char)) := parseRowsAux l.length l

/-- The input is exhausted or starts with a field separator. -/
def headSep : List Char → Bool
  | [] => true
  | c :: _ => sepChar c

/-- The input is exhausted or does not start with a quote character. -/
def headNotQ : List Char → Bool
  | [] => true
  | c :: _ => !(c = '"')

/-! ## Storage helpers (`ensure_csv_exists`, `append_guess`, `read_guesses`)

The CSV file is modelled as `Option (List Char)`: `none` means the backing
file does not exist, `some content` is its character content. -/

/-- The fixed header row of `guesses.csv` (`CSV_HEADERS` in `app.py`). -/
def CSV_HEADERS : List (List Char) :=
  [cs "timestamp", cs "guest_name", cs "baby_name", cs "gender",
   cs "due_date", cs "due_time", cs "weight_kg"]

/-- `ensure_csv_exists`: create the CSV file with the header row if missing,
leave it untouched otherwise. -/
def ensure_csv_exists : Option (List Char) → Option (List Char)
  | none => some (encodeRow CSV_HEADERS)
  | some s => some s

/-- `append_guess`: append a single CSV row to the file content.  In the
source the timestamp is produced inside the function by `datetime.utcnow`;
the embedding takes the clock reading as the first argument. -/
def append_guess (timestamp guest_name baby_name gender due_date due_time
    weight_kg : List Char) (file : List Char) : List Char :=
  file ++ encodeRow [timestamp, guest_name, baby_name, gender, due_date, due_time, weight_kg]

/-- `read_guesses`: return all data rows and the header row.  A missing
file gives no rows; `DictReader` consumes the first row as field names
(falling back to `CSV_HEADERS` when the file is empty). -/
def read_guesses : Option (List Char) → List (List (List Char)) × List (List Char)
  | none => ([], CSV_HEADERS)
  | some content =>
    match parseRows content with
    | [] => ([], CSV_HEADERS)
    | header :: rows => (rows, header)

/-! ## Field parsing (WTForms field processing)

`DateField` / `TimeField` parse via `strptime` with formats `%Y-%m-%d` and
`%H:%M`; `DecimalField` parses via `decimal.Decimal` (plain finite decimal
literals; exponent forms, underscores and the special values are outside the
modelled domain). -/

/-- Split a character list at every occurrence of `sep`. -/
def splitOnChar (sep : Char) : List Char → List (List Char)
  | [] => [[]]
  | c :: r =>
    let ps := splitOnChar sep r
    if c = sep then [] :: ps
    else
      match ps with
      | [] => [[c]]
      | p :: pt => (c :: p) :: pt

/-- A parsed `datetime.date`. -/
structure PyDate where
  year : Nat
  month : Nat
  day : Nat
deriving DecidableEq

/-- Gregorian leap year. -/
def isLeap (y : Nat) : Bool := y % 4 = 0 && (y % 100 != 0 || y % 400 = 0)

/-- Number of days in a month. -/
def daysInMonth (y m : Nat) : Nat :=
  if m = 2 then (if isLeap y then 29 else 28)
  else if m = 4 || m = 6 || m = 9 || m = 11 then 30 else 31

/-- The `%m` token of `strptime`: one digit 1-9, or two digits 01-12. -/
def monthTok (l : List Char) : Bool :=
  allDigits l &&
    ((l.length = 1 && decide (1 ≤ natOfDigits l)) ||
     (l.length = 2 && decide (1 ≤ natOfDigits l) && decide (natOfDigits l ≤ 12)))

/-- The `%d` token of `strptime`: one digit 1-9, or two digits 01-31. -/
def dayTok (l : List Char) : Bool :=
  allDigits l && decide (1 ≤ natOfDigits l) &&
    (l.length = 1 || (l.length = 2 && decide (natOfDigits l ≤ 31)))

/-- `datetime.strptime(s, "%Y-%m-%d").date()`: four-digit year, 1-2 digit
month and day, whole-string match, then calendar validity. -/
def parseDate (s : List Char) : Option PyDate :=
  match splitOnChar '-' s with
  | [ys, ms, ds] =>
    if allDigits ys && ys.length = 4 && monthTok ms && dayTok ds then
      let y := natOfDigits ys
      let m := natOfDigits ms
      let d := natOfDigits ds
      if 1 ≤ y && 1 ≤ d && d ≤ daysInMonth y m then some ⟨y, m, d⟩ else none
    else none
  | _ => none

/-- Decimal digit characters of a natural number. -/
def natChars (n : Nat) : List Char := Nat.toDigits 10 n

/-- Zero-pad a natural number to two digits. -/
def pad2 (n : Nat) : List Char :=
  let s := natChars n
  List.replicate (2 - s.length) '0' ++ s

/-- Zero-pad a natural number to four digits. -/
def pad4 (n : Nat) : List Char :=
  let s := natChars n
  List.replicate (4 - s.length) '0' ++ s

/-- `date.isoformat()`: `YYYY-MM-DD`. -/
def dateIso (d : PyDate) : List Char := pad4 d.year ++ '-' :: pad2 d.month ++ '-' :: pad2 d.day

/-- A parsed `datetime.time` (hour and minute only). -/
structure PyTime where
  hour : Nat
  minute : Nat
deriving DecidableEq

/-- The `%H` token: one digit 0-9, or two digits 00-23. -/
def hourTok (l : List Char) : Bool :=
  allDigits l && (l.length = 1 || (l.length = 2 && decide (natOfDigits l ≤ 23)))

/-- The `%M` token: one digit 0-9, or two digits 00-59. -/
def minuteTok (l : List Char) : Bool :=
  allDigits l && (l.length = 1 || (l.length = 2 && decide (natOfDigits l ≤ 59)))

/-- `datetime.strptime(s, "%H:%M").time()`. -/
def parseTime (s : List Char) : Option PyTime :=
  match splitOnChar ':' s with
  | [hs, ms] =>
    if hourTok hs && minuteTok ms then some ⟨natOfDigits hs, natOfDigits ms⟩ else none
  | _ => none

/-- `time.strftime("%H:%M")`: zero-padded `HH:MM`. -/
def timeHM (t : PyTime) : List Char := pad2 t.hour ++ ':' :: pad2 t.minute

/-- A `decimal.Decimal` value: sign, coefficient digits (leading zeros
stripped, `['0']` for zero) and the number of fractional digits of the
literal (the negated exponent). -/
structure PyDecimal where
  neg : Bool
  digits : List Char
  fracLen : Nat
deriving DecidableEq

/-- Strip leading zero digits. -/
def dropZeros (l : List Char) : List Char := l.dropWhile (· = '0')

/-- Build the stored coefficient from the literal's digit characters. -/
def decCoeff (l : List Char) : List Char :=
  match dropZeros l with
  | [] => ['0']
  | r => r

/-- `decimal.Decimal(s)` on plain finite decimal literals:
optional surrounding whitespace, optional sign, digits with an optional
fractional part, at least one digit in total. -/
def parseDecimal (s : List Char) : Option PyDecimal :=
  let t := pyStrip s
  let signed : Bool × List Char :=
    match t with
    | '-' :: r => (true, r)
    | '+' :: r => (false, r)
    | r => (false, r)
  let u := signed.2
  let ip := u.takeWhile Char.isDigit
  let rest := u.drop ip.length
  match rest with
  | [] => if ip = [] then none else some ⟨signed.1, decCoeff ip, 0⟩
  | '.' :: fp =>
    if allDigits fp && !(ip = [] && fp = []) then
      some ⟨signed.1, decCoeff (ip ++ fp), fp.length⟩
    else none
  | _ => none

/-- Rational value of a `PyDecimal`. -/
def decToRat (d : PyDecimal) : ℚ :=
  (if d.neg then -1 else 1) * (natOfDigits d.digits : ℚ) / (10 ^ d.fracLen)

/-- The `NumberRange(min=0, max=10)` test `data < 0 or data > 10`, computed
on the sign-magnitude fixed-point representation (`outOfRange0to10 d = true`
iff the rational value of `d` lies outside [0, 10]; proved below). -/
def outOfRange0to10 (d : PyDecimal) : Bool :=
  (d.neg && decide (0 < natOfDigits d.digits)) ||
  (!d.neg && decide (10 * 10 ^ d.fracLen < natOfDigits d.digits))

/-- `str` on a `Decimal` (the `to-scientific-string` algorithm, specialised
to non-positive exponents). -/
def decimalStr (d : PyDecimal) : List Char :=
  let n : Int := d.digits.length
  let leftdigits : Int := n - d.fracLen
  let dotplace : Int := if leftdigits > -6 then leftdigits else 1
  let body : List Char :=
    if dotplace ≤ 0 then
      '0' :: '.' :: (List.replicate (-dotplace).toNat '0' ++ d.digits)
    else if dotplace ≥ n then
      d.digits ++ List.replicate (dotplace.toNat - d.digits.length) '0'
    else
      d.digits.take dotplace.toNat ++ '.' :: d.digits.drop dotplace.toNat
  let expPart : List Char :=
    if leftdigits = dotplace then []
    else
      let e := leftdigits - dotplace
      'E' :: (if e ≥ 0 then '+' :: natChars e.toNat else '-' :: natChars (-e).toNat)
  (if d.neg then ['-'] else []) ++ body ++ expPart

/-! ## Form validation (`GuessForm`)

Raw form fields are text; a missing field is the empty string.  Error kinds
follow the specification's naming for the WTForms validators used:
`DataRequired` → `missingRequiredField`, `Length` → `lengthExceeded`,
the select-choice check → `invalidEnumValue`, parse failures →
`invalidFormat`, `NumberRange` → `outOfRange`. -/

/-- The raw form-field values received from the request. -/
structure RawForm where
  guest_name : List Char
  baby_name : List Char
  gender : List Char
  due_date : List Char
  due_time : List Char
  weight : List Char
deriving DecidableEq

/-- Validation error kinds. -/
inductive ValErr where
  | missingRequiredField
  | lengthExceeded
  | invalidEnumValue
  | invalidFormat
  | outOfRange
deriving DecidableEq

/-- `guest_name`: `DataRequired()` (fails on empty or whitespace-only data,
stopping the chain) then `Length(max=80)`. -/
def guestNameErrors (raw : List Char) : List ValErr :=
  if pyStrip raw = [] then [.missingRequiredField]
  else if raw.length > 80 then [.lengthExceeded]
  else []

/-- `baby_name`: `Optional()` (whitespace-only input short-circuits as valid)
then `Length(max=120)`. -/
def babyNameErrors (raw : List Char) : List ValErr :=
  if pyStrip raw = [] then []
  else if raw.length > 120 then [.lengthExceeded]
  else []

/-- `gender`: `SelectField` pre-validation against the choice values
`""`, `"Boy"`, `"Girl"`. -/
def genderErrors (raw : List Char) : List ValErr :=
  if raw = [] || raw = cs "Boy" || raw = cs "Girl" then [] else [.invalidEnumValue]

/-- `due_date`: `Optional()`, otherwise the `strptime` parse must succeed. -/
def dueDateResult (raw : List Char) : Except ValErr (Option PyDate) :=
  if pyStrip raw = [] then .ok none
  else
    match parseDate raw with
    | some d => .ok (some d)
    | none => .error .invalidFormat

/-- `due_time`: `Optional()`, otherwise the `strptime` parse must succeed. -/
def dueTimeResult (raw : List Char) : Except ValErr (Option PyTime) :=
  if pyStrip raw = [] then .ok none
  else
    match parseTime raw with
    | some t => .ok (some t)
    | none => .error .invalidFormat

/-- `weight`: `Optional()`, then the `Decimal` parse, then
`NumberRange(min=0, max=10)` (inclusive bounds). -/
def weightResult (raw : List Char) : Except ValErr (Option PyDecimal) :=
  if pyStrip raw = [] then .ok none
  else
    match parseDecimal raw with
    | none => .error .invalidFormat
    | some d =>
      if outOfRange0to10 d then .error .outOfRange
      else .ok (some d)

/-- The error list of a field result. -/
def errOf {α : Type} : Except ValErr α → List ValErr
  | .ok _ => []
  | .error e => [e]

/-- The parsed value of an optional field result. -/
def okValue {α : Type} : Except ValErr (Option α) → Option α
  | .ok v => v
  | .error _ => none

/-- All validation errors of the form, collected field by field. -/
def formErrors (raw : RawForm) : List ValErr :=
  guestNameErrors raw.guest_name ++ babyNameErrors raw.baby_name ++
  genderErrors raw.gender ++ errOf (dueDateResult raw.due_date) ++
  errOf (dueTimeResult raw.due_time) ++ errOf (weightResult raw.weight)

/-- The successfully parsed optional field values. -/
structure ParsedForm where
  dueDate : Option PyDate
  dueTime : Option PyTime
  weight : Option PyDecimal
deriving DecidableEq

/-- `form.validate_on_submit()`: either all parsed values, or the collected
error list. -/
def validateForm (raw : RawForm) : Except (List ValErr) ParsedForm :=
  if formErrors raw = [] then
    .ok ⟨okValue (dueDateResult raw.due_date), okValue (dueTimeResult raw.due_time),
         okValue (weightResult raw.weight)⟩
  else .error (formErrors raw)

/-! ## Relational store (the `Guess` model and `db.session`)

The table is a list of rows; the integer primary key is assigned as
`max id + 1` on insert, as SQLite does for an `INTEGER PRIMARY KEY`. -/

/-- One row of the `guess` table. -/
structure Guess where
  id : Nat
  timestamp : List Char
  guest_name : List Char
  baby_name : List Char
  gender : List Char
  due_date : List Char
  due_time : List Char
  weight_kg : List Char
deriving DecidableEq

/-- The field values of a row in header-column order (as built by the
results view: `[{h: getattr(g, h) for h in headers} for g in guesses]`). -/
def rowOfGuess (g : Guess) : List (List Char) :=
  [g.timestamp, g.guest_name, g.baby_name, g.gender, g.due_date, g.due_time, g.weight_kg]

/-- The next auto-assigned primary key: one more than the largest id. -/
def nextId (db : List Guess) : Nat := db.foldr (fun g m => max g.id m) 0 + 1

/-- `db.session.add` + `db.session.commit`: append the row with a fresh id. -/
def insertGuess (db : List Guess) (g : Guess) : List Guess :=
  db ++ [{ g with id := nextId db }]

/-- The record the `index` view constructs from a validated form. -/
def mkGuess (now : List Char) (raw : RawForm) (p : ParsedForm) : Guess :=
  { id := 0
    timestamp := now
    guest_name := pyStrip raw.guest_name
    baby_name := pyStrip raw.baby_name
    gender := raw.gender
    due_date := (p.dueDate.map dateIso).getD []
    due_time := (p.dueTime.map timeHM).getD []
    weight_kg := (p.weight.map decimalStr).getD [] }

/-- The `index` route on a form submission: validate, and on success insert
exactly one record; on failure leave the table untouched.  The clock reading
`now` stands for `datetime.utcnow().isoformat()`. -/
def index (db : List Guess) (now : List Char) (raw : RawForm) : List Guess :=
  match validateForm raw with
  | .ok p => insertGuess db (mkGuess now raw p)
  | .error _ => db

/-- Ordered insert used by the sort modelling `order_by(Guess.id.asc())`. -/
def insertById (g : Guess) : List Guess → List Guess
  | [] => [g]
  | h :: t => if g.id ≤ h.id then g :: h :: t else h :: insertById g t

/-- Insertion sort by ascending id. -/
def sortById : List Guess → List Guess
  | [] => []
  | h :: t => insertById h (sortById t)

/-- The `results` route: all rows ordered by ascending id, projected to the
seven header columns. -/
def results (db : List Guess) : List (List (List Char)) :=
  (sortById db).map rowOfGuess

/-- One submission event: a clock reading and the raw form fields. -/
def step (db : List Guess) (e : List Char × RawForm) : List Guess :=
  index db e.1 e.2

/-- Run a sequence of submissions against an initially empty table. -/
def runTrace (trace : List (List Char × RawForm)) : List Guess :=
  trace.foldl step []

/-- Append a sequence of records directly through the store insert. -/
def appendList (gs : List Guess) : List Guess := gs.foldl insertGuess []

/-! ## Flat-file submission workflow

`app.py` keeps the CSV helpers alongside the relational route; the flat-file
iteration's route body (validate, then `append_guess`) is not part of
`src/app.py`. -/

/-- Modelled from the spec: the flat-file Submission workflow (§4.3) — the
route of the CSV iteration is absent from `src/app.py`, which only keeps its
storage helpers.  It validates the raw fields exactly like `index` and on
success delegates the same record to `append_guess`. -/
def csvSubmit (file : List Char) (now : List Char) (raw : RawForm) : List Char :=
  match validateForm raw with
  | .ok p =>
    let g := mkGuess now raw p
    append_guess g.timestamp g.guest_name g.baby_name g.gender g.due_date
      g.due_time g.weight_kg file
  | .error _ => file

/-- One flat-file submission event. -/
def csvStep (file : List Char) (e : List Char × RawForm) : List Char :=
  csvSubmit file e.1 e.2

/-- Run a sequence of submissions against a freshly created CSV file. -/
def csvRun (trace : List (List Char × RawForm)) : List Char :=
  trace.foldl csvStep (encodeRow CSV_HEADERS)

/-- Encode a list of rows as consecutive CSV lines. -/
def rowsEncode : List (List (List Char)) → List Char
  | [] => []
  | r :: t => encodeRow r ++ rowsEncode t

/-- The CSV file holding the header line and the given records. -/
def csvFile (recs : List Guess) : List Char :=
  encodeRow CSV_HEADERS ++ rowsEncode (recs.map rowOfGuess)

/-- The records accepted by validation along a trace, in submission order. -/
def acceptedFrom (acc : List Guess) : List (List Char × RawForm) → List Guess
  | [] => acc
  | e :: t =>
    match validateForm e.2 with
    | .ok p => acceptedFrom (acc ++ [mkGuess e.1 e.2 p]) t
    | .error _ => acceptedFrom acc t

/-! ## Results-page configuration and gate

`SHOW_RESULTS` and `RESULTS_PASSWORD` are read from the environment at
module load; the `results` view never consults them or any request secret. -/

/-- `SHOW_RESULTS = os.getenv("SHOW_RESULTS", "false").lower() == "true"`. -/
def SHOW_RESULTS (envValue : Option (List Char)) : Bool :=
  (envValue.getD (cs "false")).map Char.toLower = cs "true"

/-- `RESULTS_PASSWORD = os.getenv("RESULTS_PASSWORD", "")`. -/
def RESULTS_PASSWORD (envValue : Option (List Char)) : List Char :=
  envValue.getD []

/-- The loaded results-page configuration. -/
structure Config where
  showResults : Bool
  resultsPassword : List Char
deriving DecidableEq

/-- The configuration as loaded from the two environment variables. -/
def configOf (showEnv passEnv : Option (List Char)) : Config :=
  ⟨SHOW_RESULTS showEnv, RESULTS_PASSWORD passEnv⟩

/-- The `results` route as a function of the loaded configuration and the
secret supplied with the request: the view reads neither — it
unconditionally renders every row. -/
def resultsRoute (_cfg : Config) (_suppliedSecret : Option (List Char))
    (db : List Guess) : List (List (List Char)) :=
  results db

/-- Modelled from the spec: the Results-gate `authorize` operation (§4.4) is
absent from `src/app.py` — only its configuration inputs `SHOW_RESULTS` and
`RESULTS_PASSWORD` are declared there, and nothing consults them. -/
def authorize (suppliedSecret configuredSecret : List Char)
    (publicModeEnabled : Bool) : Bool :=
  publicModeEnabled || decide (suppliedSecret = configuredSecret)

/-- Modelled from the spec: the results listing gated by `authorize` (§4.4);
an unauthorized caller receives no record data. -/
def gatedResults (supplied configured : List Char) (publicMode : Bool)
    (db : List Guess) : Option (List (List (List Char))) :=
  if authorize supplied configured publicMode then some (results db) else none

deriving instance DecidableEq for Except

/-! # Theorems

First the CSV round-trip machinery: the fuelled reader inverts the writer. -/

theorem parseUnquoted_stop : ∀ rest : List Char, headSep rest = true →
    parseUnquoted rest = ([], rest)
  | [], _ => rfl
  | c :: r, h => by
    have hc : sepChar c = true := by simpa [headSep] using h
    simp [parseUnquoted, hc]

theorem parseUnquoted_inv (f rest : List Char)
    (hf : ∀ c ∈ f, sepChar c = false) (hrest : headSep rest = true) :
    parseUnquoted (f ++ rest) = (f, rest) := by
  induction f with
  | nil => simpa using parseUnquoted_stop rest hrest
  | cons c t ih =>
    have hc : sepChar c = false := hf c (by simp)
    have ht := ih fun x hx => hf x (by simp [hx])
    simp [parseUnquoted, hc, ht]

theorem parseQuoted_inv (f rest : List Char) (hrest : headNotQ rest = true) :
    parseQuoted (escapeQuotes f ++ '"' :: rest) = (f, rest) := by
  induction f with
  | nil =>
    cases rest with
    | nil => rfl
    | cons c r =>
      have hc : (c = '"') = False := by simpa [headNotQ] using hrest
      simp [parseQuoted, hc]
  | cons c t ih =>
    by_cases hc : c = '"'
    · subst hc
      simp [escapeQuotes, parseQuoted, ih]
    · have h1 : escapeQuotes (c :: t) = c :: escapeQuotes t := by simp [escapeQuotes, hc]
      rw [h1, List.cons_append, parseQuoted.eq_def]
      simp [hc, ih]

theorem sep_notQ (rest : List Char) (h : headSep rest = true) : headNotQ rest = true := by
  cases rest with
  | nil => rfl
  | cons c r =>
    have hc : sepChar c = true := by simpa [headSep] using h
    have hd : (c = ',' ∨ c = '\r') ∨ c = '\n' := by simpa [sepChar] using hc
    rcases hd with (h | h) | h <;> subst h <;> rfl

theorem quoteChar_false {c : Char} (h : quoteChar c = false) :
    sepChar c = false ∧ ¬(c = '"') := by
  simp [quoteChar] at h
  exact ⟨by simp [sepChar, h.1.1.1, h.1.2, h.2], h.1.1.2⟩

theorem parseField_inv (f rest : List Char) (hrest : headSep rest = true) :
    parseField (encodeField f ++ rest) = (f, rest) := by
  by_cases hq : needsQuote f = true
  · have hnq : headNotQ rest = true := sep_notQ rest hrest
    have h1 : encodeField f ++ rest = '"' :: (escapeQuotes f ++ '"' :: rest) := by
      simp [encodeField, hq]
    rw [h1]
    simp [parseField, parseQuoted_inv f rest hnq, parseUnquoted_stop rest hrest]
  · have hq' : needsQuote f = false := by simpa using hq
    have hall : ∀ c ∈ f, quoteChar c = false := by
      simpa [needsQuote, List.any_eq_false] using hq'
    have h1 : encodeField f = f := by simp [encodeField, hq']
    rw [h1]
    cases f with
    | nil =>
      cases rest with
      | nil => rfl
      | cons c r =>
        have hc : sepChar c = true := by simpa [headSep] using hrest
        have hcq : ¬(c = '"') := by
          have hd : (c = ',' ∨ c = '\r') ∨ c = '\n' := by simpa [sepChar] using hc
          rcases hd with (h | h) | h <;> subst h <;> decide
        simp [parseField, hcq, parseUnquoted_stop _ hrest]
    | cons c t =>
      have hcq := quoteChar_false (hall c (by simp))
      have hsep : ∀ x ∈ c :: t, sepChar x = false :=
        fun x hx => (quoteChar_false (hall x hx)).1
      have := parseUnquoted_inv (c :: t) rest hsep hrest
      simpa [parseField, hcq.2] using this

theorem parseRecordAux_inv : ∀ (fs : List (List Char)) (rest : List Char) (fuel : Nat),
    fs ≠ [] → fs.length ≤ fuel →
    parseRecordAux fuel (joinFields fs ++ '\r' :: '\n' :: rest) = (fs, rest) := by
  intro fs
  induction fs with
  | nil => intro rest fuel h _; exact absurd rfl h
  | cons f tl ih =>
    intro rest fuel _ hf
    cases fuel with
    | zero => simp at hf
    | succ n =>
      cases tl with
      | nil =>
        have h1 : joinFields [f] ++ '\r' :: '\n' :: rest
            = encodeField f ++ '\r' :: '\n' :: rest := by simp [joinFields]
        rw [h1]
        have h2 := parseField_inv f ('\r' :: '\n' :: rest) (by simp [headSep, sepChar])
        simp [parseRecordAux, h2]
      | cons g t =>
        have h1 : joinFields (f :: g :: t) ++ '\r' :: '\n' :: rest
            = encodeField f ++ ',' :: (joinFields (g :: t) ++ '\r' :: '\n' :: rest) := by
          simp [joinFields]
        rw [h1]
        have h2 := parseField_inv f (',' :: (joinFields (g :: t) ++ '\r' :: '\n' :: rest))
          (by simp [headSep, sepChar])
        have h3 := ih rest n (by simp) (by simpa using Nat.le_of_succ_le_succ hf)
        simp [parseRecordAux, h2, h3]

theorem joinFields_len : ∀ fs : List (List Char), fs.length ≤ (joinFields fs).length + 1
  | [] => by simp [joinFields]
  | [f] => by simp [joinFields]
  | f :: g :: t => by
    have := joinFields_len (g :: t)
    simp only [joinFields, List.length_append, List.length_cons] at *
    omega

theorem parseRecord_inv (fs : List (List Char)) (rest : List Char) (h : fs ≠ []) :
    parseRecord (joinFields fs ++ '\r' :: '\n' :: rest) = (fs, rest) := by
  apply parseRecordAux_inv fs rest _ h
  have := joinFields_len fs
  simp only [parseRecord, List.length_append, List.length_cons]
  omega

theorem encodeRow_append (fs : List (List Char)) (rest : List Char) :
    encodeRow fs ++ rest = joinFields fs ++ '\r' :: '\n' :: rest := by
  simp [encodeRow]

theorem rowsEncode_ne (r : List (List Char)) (t : List (List (List Char))) :
    rowsEncode (r :: t) ≠ [] := by
  simp only [rowsEncode, encodeRow]
  intro h
  have := congrArg List.length h
  simp at this

theorem parseRowsAux_inv : ∀ (rows : List (List (List Char))) (fuel : Nat),
    rows.length ≤ fuel → (∀ r ∈ rows, r ≠ []) →
    parseRowsAux fuel (rowsEncode rows) = rows := by
  intro rows
  induction rows with
  | nil => intro fuel _ _; cases fuel <;> simp [parseRowsAux, rowsEncode]
  | cons r t ih =>
    intro fuel hf hne
    cases fuel with
    | zero => simp at hf
    | succ n =>
      have hr : r ≠ [] := hne r (by simp)
      have hla : rowsEncode (r :: t) = joinFields r ++ '\r' :: '\n' :: rowsEncode t := by
        simp [rowsEncode, encodeRow]
      have hrec : parseRecord (rowsEncode (r :: t)) = (r, rowsEncode t) := by
        rw [hla]; exact parseRecord_inv r _ hr
      have ht := ih n (by simpa using Nat.le_of_succ_le_succ hf)
        (fun x hx => hne x (by simp [hx]))
      simp [parseRowsAux, rowsEncode_ne r t, hrec, ht]

theorem rowsEncode_len : ∀ rows : List (List (List Char)),
    rows.length ≤ (rowsEncode rows).length
  | [] => by simp [rowsEncode]
  | r :: t => by
    have := rowsEncode_len t
    simp only [rowsEncode, encodeRow, List.length_append, List.length_cons]
    omega

theorem parseRows_inv (rows : List (List (List Char))) (hne : ∀ r ∈ rows, r ≠ []) :
    parseRows (rowsEncode rows) = rows :=
  parseRowsAux_inv rows (rowsEncode rows).length (rowsEncode_len rows) hne

theorem rowOfGuess_ne (g : Guess) : rowOfGuess g ≠ [] := by simp [rowOfGuess]

theorem rowOfGuess_setId (g : Guess) (n : Nat) :
    rowOfGuess { g with id := n } = rowOfGuess g := rfl

theorem csvFile_rowsEncode (recs : List Guess) :
    csvFile recs = rowsEncode (CSV_HEADERS :: recs.map rowOfGuess) := by
  simp [csvFile, rowsEncode]

theorem read_csvFile (recs : List Guess) :
    read_guesses (some (csvFile recs)) = (recs.map rowOfGuess, CSV_HEADERS) := by
  have hne : ∀ r ∈ CSV_HEADERS :: recs.map rowOfGuess, r ≠ [] := by
    intro r hr
    rcases List.mem_cons.mp hr with h | h
    · subst h; simp [CSV_HEADERS]
    · rcases List.mem_map.mp h with ⟨g, _, hg⟩
      exact hg ▸ rowOfGuess_ne g
  have hp := parseRows_inv (CSV_HEADERS :: recs.map rowOfGuess) hne
  rw [read_guesses, csvFile_rowsEncode, hp]

theorem csvFile_append (recs : List Guess) (g : Guess) :
    csvFile (recs ++ [g]) = csvFile recs ++ encodeRow (rowOfGuess g) := by
  simp only [csvFile, List.map_append, List.map_cons, List.map_nil]
  have h : ∀ rows : List (List (List Char)), ∀ r,
      rowsEncode (rows ++ [r]) = rowsEncode rows ++ encodeRow r := by
    intro rows r
    induction rows with
    | nil => simp [rowsEncode]
    | cons x t ih => simp [rowsEncode, ih]
  rw [h]
  simp

/-! ## Relational-store helpers -/

theorem id_le_fold (db : List Guess) :
    ∀ g ∈ db, g.id ≤ db.foldr (fun g m => max g.id m) 0 := by
  induction db with
  | nil => simp
  | cons h t ih =>
    intro g hg
    rcases List.mem_cons.mp hg with hh | hh
    · subst hh; simp [List.foldr_cons]
    · have := ih g hh
      simp only [List.foldr_cons]
      omega

theorem id_lt_nextId (db : List Guess) : ∀ g ∈ db, g.id < nextId db := by
  intro g hg
  have := id_le_fold db g hg
  simp only [nextId]
  omega

theorem insertById_front (g : Guess) (l : List Guess)
    (h : ∀ x ∈ l, g.id ≤ x.id) : insertById g l = g :: l := by
  cases l with
  | nil => rfl
  | cons x t => simp [insertById, h x (by simp)]

theorem sortById_sorted (l : List Guess)
    (h : l.Pairwise (fun a b => a.id ≤ b.id)) : sortById l = l := by
  induction l with
  | nil => rfl
  | cons x t ih =>
    rw [List.pairwise_cons] at h
    rw [sortById, ih h.2, insertById_front x t h.1]

theorem pairwise_insertGuess (db : List Guess) (g : Guess)
    (h : db.Pairwise (fun a b => a.id ≤ b.id)) :
    (insertGuess db g).Pairwise (fun a b => a.id ≤ b.id) := by
  rw [insertGuess, List.pairwise_append]
  refine ⟨h, by simp, ?_⟩
  intro a ha b hb
  have hb' : b = { g with id := nextId db } := by simpa using hb
  have := id_lt_nextId db a ha
  subst hb'
  simpa using Nat.le_of_lt this

theorem results_insertGuess (db : List Guess) (g : Guess)
    (h : db.Pairwise (fun a b => a.id ≤ b.id)) :
    results (insertGuess db g) = results db ++ [rowOfGuess g] := by
  have hs := pairwise_insertGuess db g h
  rw [results, sortById_sorted _ hs, insertGuess]
  rw [results, sortById_sorted _ h]
  simp [rowOfGuess_setId]

theorem results_foldl (gs : List Guess) :
    ∀ db : List Guess, db.Pairwise (fun a b => a.id ≤ b.id) →
    results (gs.foldl insertGuess db) = results db ++ gs.map rowOfGuess := by
  induction gs with
  | nil => intro db _; simp
  | cons g t ih =>
    intro db hdb
    rw [List.foldl_cons]
    rw [ih (insertGuess db g) (pairwise_insertGuess db g hdb)]
    rw [results_insertGuess db g hdb]
    simp

/-! ## Workflow-trace helpers -/

theorem index_cases (db : List Guess) (now : List Char) (raw : RawForm) :
    index db now raw = db ∨ ∃ g, index db now raw = db ++ [g] := by
  cases h : validateForm raw with
  | ok p =>
    exact Or.inr ⟨{ mkGuess now raw p with id := nextId db },
      by simp [index, h, insertGuess]⟩
  | error e => exact Or.inl (by simp [index, h])

theorem step_timestamps (db : List Guess) (e : List Char × RawForm) :
    (step db e).map Guess.timestamp = db.map Guess.timestamp ∨
    (step db e).map Guess.timestamp = db.map Guess.timestamp ++ [e.1] := by
  cases h : validateForm e.2 with
  | ok p =>
    refine Or.inr ?_
    simp [step, index, h, insertGuess, mkGuess]
  | error _ => exact Or.inl (by simp [step, index, h])

theorem ts_sublist : ∀ (trace : List (List Char × RawForm)) (db : List Guess),
    ((trace.foldl step db).map Guess.timestamp).Sublist
      (db.map Guess.timestamp ++ trace.map Prod.fst) := by
  intro trace
  induction trace with
  | nil => intro db; simp
  | cons e t ih =>
    intro db
    rw [List.foldl_cons]
    have h1 := ih (step db e)
    have h2 : ((step db e).map Guess.timestamp).Sublist
        (db.map Guess.timestamp ++ [e.1]) := by
      rcases step_timestamps db e with h | h
      · rw [h]; exact List.sublist_append_left _ _
      · rw [h]
    have h3 : ((step db e).map Guess.timestamp ++ t.map Prod.fst).Sublist
        ((db.map Guess.timestamp ++ [e.1]) ++ t.map Prod.fst) :=
      List.Sublist.append h2 (List.Sublist.refl _)
    have h4 := List.Sublist.trans h1 h3
    simpa [List.append_assoc] using h4

theorem acceptedFrom_acc : ∀ (trace : List (List Char × RawForm)) (a b : List Guess),
    acceptedFrom (a ++ b) trace = a ++ acceptedFrom b trace := by
  intro trace
  induction trace with
  | nil => intro a b; simp [acceptedFrom]
  | cons e t ih =>
    intro a b
    cases h : validateForm e.2 with
    | ok p => simp [acceptedFrom, h, List.append_assoc, ih]
    | error _ => simp [acceptedFrom, h, ih]

theorem append_guess_row (g : Guess) (file : List Char) :
    append_guess g.timestamp g.guest_name g.baby_name g.gender g.due_date
      g.due_time g.weight_kg file = file ++ encodeRow (rowOfGuess g) := rfl

theorem csvRun_foldl : ∀ (trace : List (List Char × RawForm)) (recs : List Guess),
    trace.foldl csvStep (csvFile recs) = csvFile (acceptedFrom recs trace) := by
  intro trace
  induction trace with
  | nil => intro recs; simp [acceptedFrom]
  | cons e t ih =>
    intro recs
    rw [List.foldl_cons]
    cases h : validateForm e.2 with
    | ok p =>
      have hstep : csvStep (csvFile recs) e
          = csvFile (recs ++ [mkGuess e.1 e.2 p]) := by
        simp only [csvStep, csvSubmit, h]
        rw [append_guess_row, csvFile_append]
      rw [hstep, ih, acceptedFrom, h]
    | error _ =>
      have hstep : csvStep (csvFile recs) e = csvFile recs := by
        simp [csvStep, csvSubmit, h]
      rw [hstep, ih, acceptedFrom, h]

theorem results_runTrace_gen : ∀ (trace : List (List Char × RawForm)) (db : List Guess),
    db.Pairwise (fun a b => a.id ≤ b.id) →
    results (trace.foldl step db)
      = results db ++ (acceptedFrom [] trace).map rowOfGuess := by
  intro trace
  induction trace with
  | nil => intro db _; simp [acceptedFrom]
  | cons e t ih =>
    intro db hdb
    rw [List.foldl_cons]
    cases h : validateForm e.2 with
    | ok p =>
      have hstep : step db e = insertGuess db (mkGuess e.1 e.2 p) := by
        simp [step, index, h]
      rw [hstep, ih _ (pairwise_insertGuess db _ hdb),
        results_insertGuess db _ hdb]
      have hacc : acceptedFrom [] (e :: t)
          = mkGuess e.1 e.2 p :: acceptedFrom [] t := by
        have := acceptedFrom_acc t [mkGuess e.1 e.2 p] []
        simp only [acceptedFrom, h]
        simpa using this
      rw [hacc]
      simp
    | error _ =>
      have hstep : step db e = db := by simp [step, index, h]
      rw [hstep, ih db hdb, acceptedFrom, h]

theorem results_runTrace (trace : List (List Char × RawForm)) :
    results (runTrace trace) = (acceptedFrom [] trace).map rowOfGuess := by
  have := results_runTrace_gen trace [] (by simp)
  simpa [runTrace, results, sortById] using this

theorem csvFile_nil : csvFile [] = encodeRow CSV_HEADERS := by
  simp [csvFile, rowsEncode]

theorem csvRun_eq (trace : List (List Char × RawForm)) :
    csvRun trace = csvFile (acceptedFrom [] trace) := by
  rw [csvRun, ← csvFile_nil, csvRun_foldl]

theorem parseDecimal_strip_ne {s : List Char} {d : PyDecimal}
    (h : parseDecimal s = some d) : pyStrip s ≠ [] := by
  intro he
  simp [parseDecimal, he] at h

theorem outOfRange_iff (d : PyDecimal) :
    outOfRange0to10 d = true ↔ (decToRat d < 0 ∨ 10 < decToRat d) := by
  have hpow : (0 : ℚ) < 10 ^ d.fracLen := by positivity
  have hq0 : (0 : ℚ) ≤ (natOfDigits d.digits : ℚ) / 10 ^ d.fracLen := by positivity
  cases hneg : d.neg with
  | false =>
    have hval : decToRat d = (natOfDigits d.digits : ℚ) / 10 ^ d.fracLen := by
      simp [decToRat, hneg]
    rw [hval]
    simp only [outOfRange0to10, hneg]
    constructor
    · intro h
      simp at h
      right
      rw [lt_div_iff₀ hpow]
      have hlt : ((10 * 10 ^ d.fracLen : ℕ) : ℚ) < (natOfDigits d.digits : ℚ) :=
        Nat.cast_lt.mpr h
      calc (10 : ℚ) * 10 ^ d.fracLen = ((10 * 10 ^ d.fracLen : ℕ) : ℚ) := by
            push_cast; ring
        _ < _ := hlt
    · intro h
      rcases h with h | h
      · exact absurd h (not_lt.mpr hq0)
      · simp only [Bool.false_and, Bool.not_false, Bool.true_and, Bool.false_or,
          decide_eq_true_eq]
        rw [lt_div_iff₀ hpow] at h
        have hlt : ((10 * 10 ^ d.fracLen : ℕ) : ℚ) < (natOfDigits d.digits : ℚ) := by
          calc ((10 * 10 ^ d.fracLen : ℕ) : ℚ) = (10 : ℚ) * 10 ^ d.fracLen := by
                push_cast; ring
            _ < _ := h
        exact Nat.cast_lt.mp hlt
  | true =>
    have hval : decToRat d = -((natOfDigits d.digits : ℚ) / 10 ^ d.fracLen) := by
      rw [decToRat, hneg, if_pos rfl]
      ring
    rw [hval]
    simp only [outOfRange0to10, hneg]
    constructor
    · intro h
      simp at h
      left
      have hpos : (0 : ℚ) < (natOfDigits d.digits : ℚ) / 10 ^ d.fracLen :=
        div_pos (by exact_mod_cast h) hpow
      linarith
    · intro h
      simp only [Bool.true_and, Bool.not_true, Bool.false_and, Bool.or_false,
        decide_eq_true_eq]
      rcases h with h | h
      · have hpos : (0 : ℚ) < (natOfDigits d.digits : ℚ) / 10 ^ d.fracLen := by
          linarith
        rcases Nat.eq_zero_or_pos (natOfDigits d.digits) with h0 | h0
        · rw [h0] at hpos
          simp at hpos
        · exact h0
      · linarith

/-! # Claims -/

/-- C5: `ensure_csv_exists` is idempotent: on a missing backing file it
creates exactly a single header row and no records; on an existing file it
changes nothing (no data loss, no duplicate header); applying it twice
equals applying it once. -/
theorem spec_c5_ensure_idempotent :
    ensure_csv_exists none = some (encodeRow CSV_HEADERS)
    ∧ read_guesses (ensure_csv_exists none) = ([], CSV_HEADERS)
    ∧ (∀ s : List Char, ensure_csv_exists (some s) = some s)
    ∧ ∀ f : Option (List Char),
        ensure_csv_exists (ensure_csv_exists f) = ensure_csv_exists f := by
  refine ⟨rfl, ?_, fun s => rfl, fun f => by cases f <;> rfl⟩
  have h := read_csvFile []
  simpa [csvFile_nil, ensure_csv_exists] using h

/-- C7: store-level round trip — appending a record to the flat-file store
and re-reading through `read_guesses` reproduces every appended field
exactly, after any prior records. -/
theorem spec_c7_roundtrip (recs : List Guess) (g : Guess) :
    read_guesses (some (append_guess g.timestamp g.guest_name g.baby_name
        g.gender g.due_date g.due_time g.weight_kg (csvFile recs)))
      = (recs.map rowOfGuess ++ [rowOfGuess g], CSV_HEADERS) := by
  rw [append_guess_row, ← csvFile_append, read_csvFile]
  simp

/-- C2: both stores return all appended records in exactly the order they
were appended (earliest first), and the empty sequence when nothing was
ever written. -/
theorem spec_c2_order :
    (∀ gs : List Guess, results (appendList gs) = gs.map rowOfGuess)
    ∧ results [] = []
    ∧ (∀ recs : List Guess,
        (read_guesses (some (csvFile recs))).1 = recs.map rowOfGuess)
    ∧ (read_guesses none).1 = [] := by
  refine ⟨fun gs => ?_, rfl, fun recs => by rw [read_csvFile], rfl⟩
  have h := results_foldl gs [] (by simp)
  simpa [appendList, results, sortById] using h

/-- C9: the flat-file and relational stores satisfy the same contract — for
every submission trace, driving the workflow against either store yields the
same `listAll` sequence (the accepted records in order). -/
theorem spec_c9_store_equivalence (trace : List (List Char × RawForm)) :
    (read_guesses (some (csvRun trace))).1 = results (runTrace trace)
    ∧ (read_guesses (some (csvRun trace))).1
        = (acceptedFrom [] trace).map rowOfGuess := by
  have h1 : (read_guesses (some (csvRun trace))).1
      = (acceptedFrom [] trace).map rowOfGuess := by
    rw [csvRun_eq, read_csvFile]
  exact ⟨by rw [h1, results_runTrace], h1⟩

/-- C10: the record data returned by the results view does not depend on the
configured secret, the public-mode flag, or the supplied secret — any two
requests differing only in these receive identical output. -/
theorem spec_c10_noninterference (e1 e2 p1 p2 s1 s2 : Option (List Char))
    (db : List Guess) :
    resultsRoute (configOf e1 p1) s1 db = resultsRoute (configOf e2 p2) s2 db
    ∧ resultsRoute (configOf e1 p1) s1 db = results db :=
  ⟨rfl, rfl⟩

/-- C6 (authorize modelled from §4.4 of the spec — absent from the source):
`authorize` always accepts in public mode, otherwise accepts exactly on a
case-sensitive match of the secrets; an unauthorized caller receives no
record data from the gated listing. -/
theorem spec_c6_authorize (s c : List Char) (pm : Bool) (db : List Guess) :
    authorize s c true = true
    ∧ (authorize s c false = true ↔ s = c)
    ∧ (authorize s c pm = false → gatedResults s c pm db = none)
    ∧ (authorize s c pm = true → gatedResults s c pm db = some (results db)) := by
  refine ⟨by simp [authorize], by simp [authorize], ?_, ?_⟩
  · intro h; simp [gatedResults, h]
  · intro h; simp [gatedResults, h]

/-- C6 witness: with public mode off and a wrong secret, the gated listing
returns no record data. -/
theorem spec_c6_authorize_witness :
    gatedResults (cs "wrong") (cs "letmein") false
      [⟨1, cs "t", cs "A", [], [], [], [], []⟩] = none :=
  (spec_c6_authorize (cs "wrong") (cs "letmein") false
    [⟨1, cs "t", cs "A", [], [], [], [], []⟩]).2.2.1 (by decide)

/-- C1 counterexample: the valid submission with `weight = "05.5"` is
accepted, but the stored `weight_kg` field is the normalized decimal string
`"5.5"`, not the trimmed input text `"05.5"` — so not every field of the new
record equals the corresponding trimmed input. -/
theorem spec_c1_counterexample :
    validateForm ⟨cs "Alice", [], [], [], [], cs "05.5"⟩
      = .ok ⟨none, none, some ⟨false, ['5', '5'], 1⟩⟩
    ∧ index [] (cs "2025-01-01T00:00:00") ⟨cs "Alice", [], [], [], [], cs "05.5"⟩
      = [⟨1, cs "2025-01-01T00:00:00", cs "Alice", [], [], [], [], cs "5.5"⟩]
    ∧ pyStrip (cs "05.5") = cs "05.5"
    ∧ (cs "5.5" : List Char) ≠ cs "05.5" :=
  ⟨by decide, by decide, by decide, by decide⟩

/-- C1 (amended): every accepted submission appends exactly one record —
`guest_name` and `baby_name` hold the trimmed input, `gender` the submitted
choice, and `due_date` / `due_time` / `weight_kg` the canonical
serializations of the parsed inputs; every rejected submission appends
nothing. -/
theorem spec_c1_submit_effect (db : List Guess) (now : List Char)
    (raw : RawForm) (p : ParsedForm)
    (hdb : db.Pairwise (fun a b => a.id ≤ b.id))
    (hv : validateForm raw = .ok p) :
    results (index db now raw)
      = results db ++ [[now, pyStrip raw.guest_name, pyStrip raw.baby_name,
          raw.gender, (p.dueDate.map dateIso).getD [],
          (p.dueTime.map timeHM).getD [], (p.weight.map decimalStr).getD []]]
    ∧ (results (index db now raw)).length = (results db).length + 1
    ∧ (∀ db' now' raw' es, validateForm raw' = .error es →
        index db' now' raw' = db') := by
  have h1 : index db now raw = insertGuess db (mkGuess now raw p) := by
    simp [index, hv]
  have h2 := results_insertGuess db (mkGuess now raw p) hdb
  refine ⟨?_, ?_, ?_⟩
  · rw [h1, h2]; rfl
  · rw [h1, h2]; simp
  · intro db' now' raw' es h; simp [index, h]

/-- C1 witness: a concrete accepted submission appends exactly its record. -/
theorem spec_c1_submit_effect_witness :
    results (index [] (cs "t0") ⟨cs " Bob ", [], [], [], [], []⟩)
      = [[cs "t0", cs "Bob", [], [], [], [], []]]
    ∧ (results (index [] (cs "t0") ⟨cs " Bob ", [], [], [], [], []⟩)).length = 1
    ∧ (∀ db' now' raw' es, validateForm raw' = .error es →
        index db' now' raw' = db') := by
  have h := spec_c1_submit_effect [] (cs "t0") ⟨cs " Bob ", [], [], [], [], []⟩
    ⟨none, none, none⟩ (by simp) (by decide)
  exact ⟨by simpa using h.1, by simpa using h.2.1, h.2.2⟩

/-- C3: a submission whose `guest_name` is empty or whitespace-only fails
validation with `missingRequiredField` among the collected errors, and the
store is left exactly as it was. -/
theorem spec_c3_missing_guest (raw : RawForm) (db : List Guess)
    (now : List Char) (h : pyStrip raw.guest_name = []) :
    (∃ es, validateForm raw = .error es ∧ ValErr.missingRequiredField ∈ es)
    ∧ index db now raw = db
    ∧ (results (index db now raw)).length = (results db).length := by
  have hg : guestNameErrors raw.guest_name = [ValErr.missingRequiredField] := by
    simp [guestNameErrors, h]
  have hmem : ValErr.missingRequiredField ∈ formErrors raw := by
    rw [formErrors, hg]; simp
  have hne : formErrors raw ≠ [] := by
    intro hc; rw [hc] at hmem; simp at hmem
  have hv : validateForm raw = .error (formErrors raw) := by
    simp [validateForm, hne]
  refine ⟨⟨formErrors raw, hv, hmem⟩, ?_, ?_⟩
  · simp [index, hv]
  · simp [index, hv]

/-- C3 witness: a whitespace-only guest name is rejected with
`missingRequiredField` and the store stays empty. -/
theorem spec_c3_missing_guest_witness :
    (∃ es, validateForm ⟨cs "   ", [], [], [], [], []⟩ = .error es
        ∧ ValErr.missingRequiredField ∈ es)
    ∧ index [] (cs "t") ⟨cs "   ", [], [], [], [], []⟩ = []
    ∧ (results (index [] (cs "t") ⟨cs "   ", [], [], [], [], []⟩)).length
        = (results []).length :=
  spec_c3_missing_guest ⟨cs "   ", [], [], [], [], []⟩ [] (cs "t") (by decide)

/-- C4: a weight input that parses as a decimal outside [0, 10] is rejected
with `outOfRange`; one inside the range (bounds included) is accepted; the
boundary inputs `"0"` and `"10"` are accepted. -/
theorem spec_c4_weight_range :
    (∀ (s : List Char) (d : PyDecimal), parseDecimal s = some d →
      (decToRat d < 0 ∨ 10 < decToRat d) →
      weightResult s = .error .outOfRange)
    ∧ (∀ (s : List Char) (d : PyDecimal), parseDecimal s = some d →
      0 ≤ decToRat d → decToRat d ≤ 10 →
      weightResult s = .ok (some d))
    ∧ weightResult (cs "0") = .ok (some ⟨false, ['0'], 0⟩)
    ∧ weightResult (cs "10") = .ok (some ⟨false, ['1', '0'], 0⟩) := by
  refine ⟨?_, ?_, by decide, by decide⟩
  · intro s d hp hr
    have hs := parseDecimal_strip_ne hp
    simp only [weightResult, hp, if_neg hs]
    rw [if_pos ((outOfRange_iff d).mpr hr)]
  · intro s d hp h0 h10
    have hs := parseDecimal_strip_ne hp
    have hnr : ¬(decToRat d < 0 ∨ 10 < decToRat d) := by
      push_neg
      exact ⟨h0, h10⟩
    have hb : ¬(outOfRange0to10 d = true) := fun hc => hnr ((outOfRange_iff d).mp hc)
    simp only [weightResult, hp, if_neg hs]
    rw [if_neg hb]

/-- C4 witness: `"-1"` and `"15.5"` are rejected as out of range. -/
theorem spec_c4_weight_range_witness :
    weightResult (cs "-1") = .error .outOfRange
    ∧ weightResult (cs "15.5") = .error .outOfRange := by
  constructor
  · exact spec_c4_weight_range.1 (cs "-1") ⟨true, ['1'], 0⟩ (by decide)
      ((outOfRange_iff ⟨true, ['1'], 0⟩).mp (by decide))
  · exact spec_c4_weight_range.1 (cs "15.5") ⟨false, ['1', '5', '5'], 1⟩
      (by decide) ((outOfRange_iff ⟨false, ['1', '5', '5'], 1⟩).mp (by decide))

/-- C8: along any submission trace whose clock readings are ordered by a
relation, every stored record carries one of those readings as its
timestamp, the stored timestamps respect the same relation in insertion
order, and no operation ever removes, mutates or reorders existing
records — each step either leaves the table unchanged or appends one row. -/
theorem spec_c8_timestamps (le : List Char → List Char → Prop)
    (trace : List (List Char × RawForm))
    (hmono : (trace.map Prod.fst).Pairwise le) :
    ((runTrace trace).map Guess.timestamp).Pairwise le
    ∧ (∀ g ∈ runTrace trace, g.timestamp ∈ trace.map Prod.fst)
    ∧ (∀ db now raw, index db now raw = db
        ∨ ∃ g, index db now raw = db ++ [g]) := by
  have hsub := ts_sublist trace []
  simp only [List.map_nil, List.nil_append] at hsub
  refine ⟨List.Pairwise.sublist hsub hmono, ?_,
    fun db now raw => index_cases db now raw⟩
  intro g hg
  exact hsub.subset (List.mem_map_of_mem _ hg)

/-- C8 witness: a two-submission trace with non-decreasing clock readings. -/
theorem spec_c8_timestamps_witness :
    ((runTrace [(cs "t1", ⟨cs "A", [], [], [], [], []⟩),
        (cs "t2", ⟨cs "B", [], [], [], [], []⟩)]).map
      Guess.timestamp).Pairwise (fun a b => a.length ≤ b.length)
    ∧ (∀ g ∈ runTrace [(cs "t1", ⟨cs "A", [], [], [], [], []⟩),
        (cs "t2", ⟨cs "B", [], [], [], [], []⟩)],
        g.timestamp ∈ [(cs "t1", (⟨cs "A", [], [], [], [], []⟩ : RawForm)),
          (cs "t2", ⟨cs "B", [], [], [], [], []⟩)].map Prod.fst)
    ∧ (∀ db now raw, index db now raw = db
        ∨ ∃ g, index db now raw = db ++ [g]) :=
  spec_c8_timestamps (fun a b => a.length ≤ b.length)
    [(cs "t1", ⟨cs "A", [], [], [], [], []⟩),
     (cs "t2", ⟨cs "B", [], [], [], [], []⟩)]
    (by simp [List.pairwise_cons, cs])

end BabyShower
